import Mathlib

/- Shallow embedding of improved_plex_mapper.py: path mapping, file probing,
   reconciliation, CSV export/import, and database-copy updating.  Paths and
   other textual values are lists of characters; timestamps are integers
   (epoch seconds); the filesystem and the calendar are explicit parameters. -/

/-- Textual values (paths, config lines, CSV cells) are lists of characters. -/
abbrev PStr := List Char

/-- Model of Python str.strip with no argument: drop leading and trailing
whitespace characters. -/
def pyStrip (s : PStr) : PStr :=
  ((s.dropWhile Char.isWhitespace).reverse.dropWhile Char.isWhitespace).reverse

/-- Model of Python str.replace(old, new, 1): replace the leftmost occurrence
of old in the string, or return the string unchanged when old never occurs.
When old is empty, new is inserted at the front, as in Python. -/
def replaceOnce (old new : PStr) : PStr → PStr
  | [] => if old.isPrefixOf ([] : PStr) then new else []
  | c :: rest =>
    if old.isPrefixOf (c :: rest) then new ++ (c :: rest).drop old.length
    else c :: replaceOnce old new rest

/-- Rule scan inside PlexPathMapper.map_path: the rules are tried in order and
the first rule whose old side starts the (already stripped) path fires via
replaceOnce; when no rule matches the path is returned unchanged. -/
def applyMappings : List (PStr × PStr) → PStr → PStr
  | [], t => t
  | (o, n) :: rest, t => if o.isPrefixOf t then replaceOnce o n t else applyMappings rest t

/-- Model of PlexPathMapper.map_path: empty input is returned unchanged,
otherwise the path is stripped and the rule scan is applied. -/
def map_path (rules : List (PStr × PStr)) (p : PStr) : PStr :=
  if p = [] then p else applyMappings rules (pyStrip p)

/-- Model of Python line.split(sep, 1) for a one-character separator comma:
split at the first comma, returning the two sides, or none when the line has
no comma (Python then yields a single part, which the loader skips). -/
def splitFirstComma : PStr → Option (PStr × PStr)
  | [] => none
  | c :: rest =>
    if c = ',' then some ([], rest)
    else (splitFirstComma rest).map (fun pr => (c :: pr.1, pr.2))

/-- Per-line step of PlexPathMapper._load_mappings_from_file: strip the line,
skip blank lines and lines starting with the comment character, split on the
first comma, and strip both sides; lines without a comma are skipped. -/
def parseLine (line : PStr) : Option (PStr × PStr) :=
  let t := pyStrip line
  if t = [] then none
  else if t.head? = some '#' then none
  else
    match splitFirstComma t with
    | some (a, b) => some (pyStrip a, pyStrip b)
    | none => none

/-- Model of PlexPathMapper._load_mappings_from_file.  The configuration file
is given as an optional list of lines; none models a missing file, for which
the source returns an empty mapping list. -/
def load_mappings_from_file : Option (List PStr) → List (PStr × PStr)
  | none => []
  | some lines => lines.filterMap parseLine

/-- Model of PlexPathMapper.__init__: a supplied rule list (even an empty one)
is taken as is; when none is supplied the configuration file is loaded, and an
empty load result raises, modelled as a none result. -/
def initPathMapper (supplied : Option (List (PStr × PStr))) (cfg : Option (List PStr)) :
    Option (List (PStr × PStr)) :=
  match supplied with
  | some ms => some ms
  | none =>
    let ms := load_mappings_from_file cfg
    if ms = [] then none else some ms

/-- Mapped-path half of PlexPathMapper.get_file_info: the mapped path is only
probed when it differs from the raw input path; a stat failure (the source
catches OSError and ValueError, logs, and falls through) yields not-found. -/
def probeMapped (isF : PStr → Bool) (st : PStr → Option Int)
    (rules : List (PStr × PStr)) (p : PStr) : Option (Int × PStr) :=
  if map_path rules p ≠ p then
    if isF (map_path rules p) then
      match st (map_path rules p) with
      | some t => some (t, map_path rules p)
      | none => none
    else none
  else none

/-- Core of PlexPathMapper.get_file_info: try the original path first; if it
is a regular file and its modification time is readable, return it; a read
error on the original falls through to the mapped path.  isF models
Path.is_file and st models reading the modification time, with none standing
for a raised OSError or ValueError. -/
def probe (isF : PStr → Bool) (st : PStr → Option Int)
    (rules : List (PStr × PStr)) (p : PStr) : Option (Int × PStr) :=
  if p = [] then none
  else if isF p then
    match st p with
    | some t => some (t, p)
    | none => probeMapped isF st rules p
  else probeMapped isF st rules p

/-- Model of PlexPathMapper.get_file_info returning the source's triple
(mtime, actual path used, exists). -/
def get_file_info (isF : PStr → Bool) (st : PStr → Option Int)
    (rules : List (PStr × PStr)) (p : PStr) : Option Int × Option PStr × Bool :=
  match probe isF st rules p with
  | some (t, a) => (some t, some a, true)
  | none => (none, none, false)

/-- Joined database row as produced by the SQL joins in the source: metadata
id, title, the three catalog timestamps, library section id, and the media
part's file path (nullable in the store). -/
structure DbRow where
  rid : Int
  title : Option PStr
  added_at : Option Int
  created_at : Option Int
  updated_at : Option Int
  lib : Int
  file : Option PStr
deriving DecidableEq

/-- Query result row: like DbRow but with the file path known non-null and
non-empty, as both source queries require. -/
structure QRow where
  rid : Int
  title : Option PStr
  added_at : Option Int
  created_at : Option Int
  updated_at : Option Int
  lib : Int
  file : PStr
deriving DecidableEq

/-- Ordering used to model ORDER BY on a nullable integer column: SQL NULL
sorts below every value. -/
def leOI : Option Int → Option Int → Bool
  | none, _ => true
  | some _, none => false
  | some a, some b => decide (a ≤ b)

/-- Stable insertion of one element into a sorted list: the new element goes
before the first element it may precede. -/
def sinsert (le : α → α → Bool) (a : α) : List α → List α
  | [] => [a]
  | b :: bs => if le a b then a :: b :: bs else b :: sinsert le a bs

/-- Stable sort used to model both the SQL ORDER BY and Python sorted. -/
def ssort (le : α → α → Bool) : List α → List α
  | [] => []
  | a :: as => sinsert le a (ssort le as)

/-- ORDER BY metadata_items.updated_at DESC over query rows. -/
def rowsByUpdatedDesc (qs : List QRow) : List QRow :=
  ssort (fun a b => leOI b.updated_at a.updated_at) qs

/-- Model of the export query of CSVHandler.export_full_media_data_to_csv:
rows whose file path is non-null and non-empty, ordered by updated_at
descending.  Unlike the get_recent_media query, the title is not filtered. -/
def exportQ (db : List DbRow) : List QRow :=
  rowsByUpdatedDesc (db.filterMap fun r =>
    match r.file with
    | some f =>
      if f = [] then none
      else some ⟨r.rid, r.title, r.added_at, r.created_at, r.updated_at, r.lib, f⟩
    | none => none)

/-- Model of the query of PlexDatabaseManager.get_recent_media: additionally
requires the title to be non-null. -/
def recentQ (db : List DbRow) : List QRow :=
  rowsByUpdatedDesc (db.filterMap fun r =>
    if r.title = none then none
    else
      match r.file with
      | some f =>
        if f = [] then none
        else some ⟨r.rid, r.title, r.added_at, r.created_at, r.updated_at, r.lib, f⟩
      | none => none)

/-- Media entry dictionary built by PlexDatabaseManager._create_entry and
mutated by the reconciliation loop. -/
structure Entry where
  item_id : Int
  title : Option PStr
  library_section_id : Int
  added_at : Option Int
  created_at : Option Int
  updated_at : Option Int
  plex_path : PStr
  actual_path : Option PStr
  file_mtime : Option Int
  file_exists : Bool
  path_mapped : Bool
deriving DecidableEq

/-- Timestamp conversion in _create_entry: catalog values are kept only when
they are present and strictly positive. -/
def convertTs : Option Int → Option Int
  | none => none
  | some t => if 0 < t then some t else none

/-- Model of PlexDatabaseManager._create_entry. -/
def create_entry (r : QRow) : Entry :=
  { item_id := r.rid, title := r.title, library_section_id := r.lib,
    added_at := convertTs r.added_at, created_at := convertTs r.created_at,
    updated_at := convertTs r.updated_at, plex_path := r.file,
    actual_path := none, file_mtime := none, file_exists := false,
    path_mapped := false }

/-- Sort keys accepted by PlexDatabaseManager._sort_entries; unknown models
any other string, for which the source returns the entries unchanged. -/
inductive SortKey
  | fileMtime
  | addedAt
  | createdAt
  | updatedAt
  | unknown
deriving DecidableEq

/-- Field accessor used by _sort_entries; a missing value sorts as the
minimal datetime, modelled by none being the bottom of leOI. -/
def entryKey : SortKey → Entry → Option Int
  | .fileMtime, e => e.file_mtime
  | .addedAt, e => e.added_at
  | .createdAt, e => e.created_at
  | .updatedAt, e => e.updated_at
  | .unknown, _ => none

/-- Model of PlexDatabaseManager._sort_entries: stable descending sort by the
chosen key, or the input unchanged for an unrecognised key. -/
def sortEntries (k : SortKey) (es : List Entry) : List Entry :=
  match k with
  | .unknown => es
  | k => ssort (fun a b => leOI (entryKey k b) (entryKey k a)) es

/-- Model of the Python slice entries[:limit] for an integer limit: a
nonnegative limit keeps the first limit elements (zero keeps none), a
negative limit drops the last that many elements. -/
def pySlice (l : List α) (k : Int) : List α :=
  if 0 ≤ k then l.take k.toNat else l.take (l.length - k.natAbs)

/-- First loop of PlexDatabaseManager.get_recent_media: build one entry per
row, and append an update (mtime, item id) for every row whose file was
found. -/
def fullRecon (isF : PStr → Bool) (st : PStr → Option Int)
    (rules : List (PStr × PStr)) : List QRow → List Entry × List (Int × Int)
  | [] => ([], [])
  | r :: rest =>
    let acc := fullRecon isF st rules rest
    match probe isF st rules r.file with
    | some (t, a) =>
      ({ create_entry r with
          file_mtime := some t, actual_path := some a, file_exists := true,
          path_mapped := decide (a ≠ r.file) } :: acc.1,
        (t, r.rid) :: acc.2)
    | none => (create_entry r :: acc.1, acc.2)

/-- Model of PlexDatabaseManager.get_recent_media over an explicit row list:
build entries and updates, sort, slice to the limit, and keep only updates
whose item id still occurs among the sliced entries. -/
def get_recent_media (isF : PStr → Bool) (st : PStr → Option Int)
    (rules : List (PStr × PStr)) (rows : List QRow) (limit : Int) (key : SortKey) :
    List Entry × List (Int × Int) :=
  (pySlice (sortEntries key (fullRecon isF st rules rows).1) limit,
   (fullRecon isF st rules rows).2.filter
     (fun u => decide (u.2 ∈
       (pySlice (sortEntries key (fullRecon isF st rules rows).1) limit).map
         (fun e => e.item_id))))

/-- CSV cell as observed by the import code: it only tests truthiness,
compares with a literal, and applies int; a cell is empty, an integer, or
text that int rejects. -/
inductive Cell
  | empty
  | intv (n : Int)
  | malformed
deriving DecidableEq

/-- CSV row restricted to the columns create_db_from_csv reads: the id
column, whether the file_exists column equals the literal true, and the
new_updated_at column. -/
structure CsvRow where
  id : Cell
  file_exists : Bool
  new_updated_at : Cell
deriving DecidableEq

/-- Cell written for a nullable integer column: NULL becomes the empty cell. -/
def cellOfOpt : Option Int → Cell
  | none => Cell.empty
  | some n => Cell.intv n

/-- Row written by CSVHandler.export_full_media_data_to_csv, restricted to
the columns the import reads: when the probe finds the file the corrected
timestamp is the file's modification time, otherwise file_exists is false and
new_updated_at carries the original catalog updated_at verbatim. -/
def exportRowOf (isF : PStr → Bool) (st : PStr → Option Int)
    (rules : List (PStr × PStr)) (r : QRow) : CsvRow :=
  match probe isF st rules r.file with
  | some (t, _) => ⟨Cell.intv r.rid, true, Cell.intv t⟩
  | none => ⟨Cell.intv r.rid, false, cellOfOpt r.updated_at⟩

/-- Model of CSVHandler.export_full_media_data_to_csv: rows of the export
query (optionally LIMITed; a limit of zero is falsy in Python and means no
limit) rendered through exportRowOf. -/
def export_full_media_data_to_csv (db : List DbRow) (isF : PStr → Bool)
    (st : PStr → Option Int) (rules : List (PStr × PStr)) (limit : Option Nat) :
    List CsvRow :=
  (match limit with
   | some n => if n = 0 then exportQ db else (exportQ db).take n
   | none => exportQ db).map (exportRowOf isF st rules)

/-- Timestamp validity test of the source: datetime.fromtimestamp may raise
(tsR), otherwise the year (tsY) must lie in the window from 1970 to the
current year plus one; outside that the update is skipped. -/
def skipTs (tsR : Int → Bool) (tsY : Int → Int) (cy : Int) (t : Int) : Bool :=
  tsR t || decide (cy + 1 < tsY t) || decide (tsY t < 1970)

/-- Python dict assignment on an association list: an existing key keeps its
position and gets the new value, a new key is appended at the end. -/
def dictInsert : List (Int × Int) → Int → Int → List (Int × Int)
  | [], k, v => [(k, v)]
  | (k', v') :: rest, k, v =>
    if k' = k then (k, v) :: rest else (k', v') :: dictInsert rest k v

/-- Association list lookup, modelling Python dict indexing. -/
def alookup : List (Int × Int) → Int → Option Int
  | [], _ => none
  | (k', v') :: rest, k => if k' = k then some v' else alookup rest k

/-- Row-collection loop of CSVHandler.create_db_from_csv: rows whose
file_exists cell is not the literal true or whose new_updated_at cell is
falsy are skipped; then both id and new_updated_at are parsed with int, and a
parse failure raises out of the loop to the outer handler, aborting the whole
batch (modelled as none); a parsed timestamp failing the validity check is
skipped; otherwise the update is stored in the dict keyed by id. -/
def collectUpdates (fix : Bool) (tsR : Int → Bool) (tsY : Int → Int) (cy : Int) :
    List CsvRow → List (Int × Int) → Option (List (Int × Int))
  | [], d => some d
  | row :: rest, d =>
    if row.file_exists = true ∧ row.new_updated_at ≠ Cell.empty then
      match row.id, row.new_updated_at with
      | Cell.intv mid, Cell.intv nts =>
        if fix = true ∧ skipTs tsR tsY cy nts = true then
          collectUpdates fix tsR tsY cy rest d
        else collectUpdates fix tsR tsY cy rest (dictInsert d mid nts)
      | _, _ => none
    else collectUpdates fix tsR tsY cy rest d

/-- Contribution of one CSV row for a given record id: the timestamp the row
stores under that id, when the row passes the gating and validity checks. -/
def acceptedTs (fix : Bool) (tsR : Int → Bool) (tsY : Int → Int) (cy : Int)
    (row : CsvRow) (k : Int) : Option Int :=
  if row.file_exists = true ∧ row.new_updated_at ≠ Cell.empty then
    match row.id, row.new_updated_at with
    | Cell.intv mid, Cell.intv nts =>
      if fix = true ∧ skipTs tsR tsY cy nts = true then none
      else if mid = k then some nts else none
    | _, _ => none
  else none

/-- Last accepted timestamp for a record id across a row list: the value of
the last row that passes the checks and carries this id. -/
def lastAcceptedTs (fix : Bool) (tsR : Int → Bool) (tsY : Int → Int) (cy : Int) :
    List CsvRow → Int → Option Int
  | [], _ => none
  | row :: rest, k =>
    match lastAcceptedTs fix tsR tsY cy rest k with
    | some v => some v
    | none => acceptedTs fix tsR tsY cy row k

/-- Content of a catalog store file: the metadata_items table as pairs of id
and updated_at; the rest of the schema is opaque and carried unchanged by
copying, so it is omitted. -/
abbrev DbVal := List (Int × Int)

/-- Filesystem state for the writer models: each path holds an optional
store content. -/
abbrev FState := PStr → Option DbVal

/-- Pointwise update of the filesystem state at one path. -/
def fupd (σ : FState) (p : PStr) (v : Option DbVal) : FState :=
  fun q => if q = p then v else σ q

/-- Model of the UPDATE statement SET updated_at WHERE id: every row of the
table with the given id gets the new timestamp; absent ids change nothing. -/
def dbUpdate (c : DbVal) (mid nts : Int) : DbVal :=
  c.map (fun pr => if pr.1 = mid then (pr.1, nts) else pr)

/-- Apply loop of create_db_from_csv: each dict item is executed; a
store-level failure (ef) on one item is logged and skipped; successful
executions are counted. -/
def applyLoop (ef : Int → Int → Bool) : List (Int × Int) → DbVal → Nat → DbVal × Nat
  | [], c, a => (c, a)
  | (mid, nts) :: rest, c, a =>
    if ef mid nts then applyLoop ef rest c a
    else applyLoop ef rest (dbUpdate c mid nts) (a + 1)

/-- Update loop of update_database_copy over (mtime, item id) pairs: with
validation on, a timestamp on which datetime.fromtimestamp raises aborts the
loop (none, the exception reaches the outer handler before any commit), a
timestamp outside the validity window is skipped, a store-level failure on
one item is skipped, and successes are counted. -/
def updLoop (fix : Bool) (tsR : Int → Bool) (tsY : Int → Int) (cy : Int)
    (ef : Int → Int → Bool) : List (Int × Int) → DbVal → Nat → Option (DbVal × Nat)
  | [], c, a => some (c, a)
  | (mt, iid) :: rest, c, a =>
    if fix = true ∧ tsR mt = true then none
    else if fix = true ∧ (decide (cy + 1 < tsY mt) || decide (tsY mt < 1970)) = true then
      updLoop fix tsR tsY cy ef rest c a
    else if ef iid mt then updLoop fix tsR tsY cy ef rest c a
    else updLoop fix tsR tsY cy ef rest (dbUpdate c iid mt) (a + 1)

/-- Outcome of a writer run: the final filesystem state, the boolean result
of the source function, and the number of updates applied and committed to
the duplicate. -/
structure RunResult where
  files : FState
  ok : Bool
  applied : Nat

/-- Model of CSVHandler.create_db_from_csv: copy the template to the output
path (a missing template raises into the outer handler), collect updates
from the CSV rows (a parse failure aborts with the copy already written), fail
when the dict is empty, otherwise run the apply loop on the duplicate, commit,
and succeed exactly when the count of executed updates is positive. -/
def create_db_from_csv (σ : FState) (rows : List CsvRow) (tpl outp : PStr)
    (fix : Bool) (tsR : Int → Bool) (tsY : Int → Int) (cy : Int)
    (ef : Int → Int → Bool) : RunResult :=
  match σ tpl with
  | none => ⟨σ, false, 0⟩
  | some content =>
    match collectUpdates fix tsR tsY cy rows [] with
    | none => ⟨fupd σ outp (some content), false, 0⟩
    | some [] => ⟨fupd σ outp (some content), false, 0⟩
    | some ups =>
      let res := applyLoop ef ups content 0
      ⟨fupd (fupd σ outp (some content)) outp (some res.1),
        decide (0 < res.2), res.2⟩

/-- Model of PlexDatabaseManager.update_database_copy: duplicate the source
store at the output path (the tool-specific backup and the raw copy both
produce a copy of the source; a missing source raises into the outer
handler), then run the update loop on the duplicate; an aborted loop leaves
the uncommitted duplicate as the plain copy and reports failure, otherwise
the result is committed and the run succeeds exactly when the count of
executed updates is positive. -/
def update_database_copy (σ : FState) (src outp : PStr) (ups : List (Int × Int))
    (fix : Bool) (tsR : Int → Bool) (tsY : Int → Int) (cy : Int)
    (ef : Int → Int → Bool) : RunResult :=
  match σ src with
  | none => ⟨σ, false, 0⟩
  | some content =>
    match updLoop fix tsR tsY cy ef ups content 0 with
    | none => ⟨fupd σ outp (some content), false, 0⟩
    | some res =>
      ⟨fupd (fupd σ outp (some content)) outp (some res.1),
        decide (0 < res.2), res.2⟩

/-- replaceOnce at a string the old side actually starts replaces exactly
that one leading occurrence. -/
theorem replaceOnce_eq_of_isPre (old new : PStr) (s : PStr)
    (h : old.isPrefixOf s = true) :
    replaceOnce old new s = new ++ s.drop old.length := by
  cases s with
  | nil => simp [replaceOnce, h]
  | cons c rest => simp [replaceOnce, h]

/-- applyMappings fires the first rule whose old side starts the path. -/
theorem applyMappings_first (t : PStr) :
    ∀ (rs1 : List (PStr × PStr)) (o n : PStr) (rs2 : List (PStr × PStr)),
      (∀ r ∈ rs1, r.1.isPrefixOf t = false) → o.isPrefixOf t = true →
      applyMappings (rs1 ++ (o, n) :: rs2) t = n ++ t.drop o.length := by
  intro rs1
  induction rs1 with
  | nil =>
    intro o n rs2 _ ho
    simp [applyMappings, ho, replaceOnce_eq_of_isPre]
  | cons a as ih =>
    intro o n rs2 h ho
    obtain ⟨o1, n1⟩ := a
    have ha : o1.isPrefixOf t = false := h (o1, n1) (List.mem_cons_self _ _)
    simp only [List.cons_append, applyMappings, ha, Bool.false_eq_true, if_false]
    exact ih o n rs2 (fun r hr => h r (List.mem_cons_of_mem _ hr)) ho

/-- applyMappings returns the path unchanged when no rule matches. -/
theorem applyMappings_none (t : PStr) :
    ∀ rules : List (PStr × PStr), (∀ r ∈ rules, r.1.isPrefixOf t = false) →
      applyMappings rules t = t := by
  intro rules
  induction rules with
  | nil => intro _; rfl
  | cons a as ih =>
    intro h
    obtain ⟨o, n⟩ := a
    have ha : o.isPrefixOf t = false := h (o, n) (List.mem_cons_self _ _)
    simp only [applyMappings, ha, Bool.false_eq_true, if_false]
    exact ih (fun r hr => h r (List.mem_cons_of_mem _ hr))

/-- C2: for every non-empty input path, map_path first strips surrounding
whitespace, then scans the rule list in declaration order; for the first rule
whose old side is a literal prefix of the stripped path it replaces exactly
that one leading occurrence with the new side and returns (rules listed
earlier that do not match are skipped, rules listed later are ignored even if
compatible, and there is no longest-match selection); if no rule's old side
is a prefix, the stripped path is returned unchanged. -/
theorem c2_first_match_wins (rules : List (PStr × PStr)) (p : PStr) (hp : p ≠ []) :
    (∀ (rs1 : List (PStr × PStr)) (o n : PStr) (rs2 : List (PStr × PStr)),
        rules = rs1 ++ (o, n) :: rs2 →
        (∀ r ∈ rs1, r.1.isPrefixOf (pyStrip p) = false) →
        o.isPrefixOf (pyStrip p) = true →
        map_path rules p = n ++ (pyStrip p).drop o.length)
    ∧ ((∀ r ∈ rules, r.1.isPrefixOf (pyStrip p) = false) →
        map_path rules p = pyStrip p) := by
  constructor
  · intro rs1 o n rs2 hre h1 ho
    rw [map_path, if_neg hp, hre]
    exact applyMappings_first (pyStrip p) rs1 o n rs2 h1 ho
  · intro h
    rw [map_path, if_neg hp]
    exact applyMappings_none (pyStrip p) rules h

/-- Witness for c2_first_match_wins at a concrete path and rule list. -/
theorem c2_first_match_wins_witness :
    ([' ', '/', 'a', 'x'] : PStr) ≠ [] ∧
    map_path [(['/', 'a'], ['/', 'b'])] [' ', '/', 'a', 'x'] = ['/', 'b', 'x'] :=
  ⟨by decide,
    ((c2_first_match_wins [(['/', 'a'], ['/', 'b'])] [' ', '/', 'a', 'x']
        (by decide)).1 [] ['/', 'a'] ['/', 'b'] [] rfl
        (by simp) (by decide)).trans (by decide)⟩

/-- C6 counterexample: constructing the mapper with an explicitly supplied
empty rule list succeeds even though no usable path-mapping rules are
available, and the resulting mapper is a silent no-op pass-through. -/
theorem c6_counterexample :
    initPathMapper (some []) none = some [] ∧
    map_path [] ['/', 'x'] = ['/', 'x'] :=
  ⟨rfl, by decide⟩

/-- C6 amended: construction fails exactly when the rule-list argument was
not supplied at all and the configuration file yields no rules; an explicitly
supplied rule list, including the empty one, is always accepted. -/
theorem c6_amended (supplied : Option (List (PStr × PStr)))
    (cfg : Option (List PStr)) :
    initPathMapper supplied cfg = none ↔
      supplied = none ∧ load_mappings_from_file cfg = [] := by
  cases supplied with
  | some ms => simp [initPathMapper]
  | none =>
    by_cases h : load_mappings_from_file cfg = [] <;> simp [initPathMapper, h]

/-- C7: for every non-empty path, get_file_info checks the original path
first and, when it is a regular file with a readable modification time,
returns it without consulting the remapped path, whatever the filesystem
says elsewhere; the remapped path is only probed when it differs from the
original; and a read error on the original is treated as not-found, falling
through to the remapped path instead of being raised. -/
theorem c7_probe_order (isF : PStr → Bool) (st : PStr → Option Int)
    (rules : List (PStr × PStr)) (p : PStr) (hp : p ≠ []) :
    (∀ t : Int, isF p = true → st p = some t →
      get_file_info isF st rules p = (some t, some p, true))
    ∧ (map_path rules p = p → (isF p = false ∨ st p = none) →
      get_file_info isF st rules p = (none, none, false))
    ∧ (∀ t : Int, isF p = true → st p = none → map_path rules p ≠ p →
      isF (map_path rules p) = true → st (map_path rules p) = some t →
      get_file_info isF st rules p = (some t, some (map_path rules p), true)) := by
  refine ⟨?_, ?_, ?_⟩
  · intro t h1 h2
    simp [get_file_info, probe, hp, h1, h2]
  · intro hm hor
    have hpm : probeMapped isF st rules p = none := by
      simp [probeMapped, hm]
    rcases hor with h | h
    · simp [get_file_info, probe, hp, h, hpm]
    · cases hf : isF p <;> simp [get_file_info, probe, hp, hf, h, hpm]
  · intro t h1 h2 h3 h4 h5
    simp [get_file_info, probe, probeMapped, hp, h1, h2, h3, h4, h5]

/-- Witness for c7_probe_order: the original path wins when readable, a
same-path mapping is not reprobed, and a mapped path is used when the
original is missing. -/
theorem c7_probe_order_witness :
    get_file_info (fun _ => true) (fun _ => some 5) [] ['a']
      = (some 5, some ['a'], true)
    ∧ get_file_info (fun _ => false) (fun _ => some 5) [] ['a']
      = (none, none, false)
    ∧ get_file_info (fun _ => true)
        (fun q => if q = ['b', 'x'] then some 9 else none)
        [(['a'], ['b'])] ['a', 'x'] = (some 9, some ['b', 'x'], true) := by
  refine ⟨?_, ?_, ?_⟩
  · exact (c7_probe_order _ _ [] ['a'] (by decide)).1 5 rfl rfl
  · exact (c7_probe_order _ _ [] ['a'] (by decide)).2.1 (by decide) (Or.inl rfl)
  · exact ((c7_probe_order _ _ [(['a'], ['b'])] ['a', 'x'] (by decide)).2.2
      9 rfl (by decide) (by decide) rfl (by decide)).trans (by decide)

/-- C3 counterexample: with one record whose file exists, a limit of zero
returns an empty entry list although the full sorted entry list is
non-empty, and a limit of minus one also truncates; a limit less than or
equal to zero is not unlimited. -/
theorem c3_counterexample :
    (get_recent_media (fun _ => true) (fun _ => some 100) []
        [⟨1, some ['t'], none, none, some 5, 7, ['a']⟩] 0 SortKey.fileMtime).1 = []
    ∧ sortEntries SortKey.fileMtime
        (fullRecon (fun _ => true) (fun _ => some 100) []
          [⟨1, some ['t'], none, none, some 5, 7, ['a']⟩]).1 ≠ []
    ∧ (get_recent_media (fun _ => true) (fun _ => some 100) []
        [⟨1, some ['t'], none, none, some 5, 7, ['a']⟩] (-1) SortKey.fileMtime).1
        = [] := by
  refine ⟨by decide, by decide, by decide⟩

/-- C3 amended: after sorting, the entry list is truncated with Python slice
semantics: a nonnegative limit keeps the first limit entries (so limit zero
yields the empty list), and a negative limit drops the last that many
entries; a limit less than or equal to zero does not mean unlimited. -/
theorem c3_amended (isF : PStr → Bool) (st : PStr → Option Int)
    (rules : List (PStr × PStr)) (rows : List QRow) (limit : Int) (key : SortKey) :
    (get_recent_media isF st rules rows limit key).1 =
      (if 0 ≤ limit then
        (sortEntries key (fullRecon isF st rules rows).1).take limit.toNat
      else
        (sortEntries key (fullRecon isF st rules rows).1).take
          ((sortEntries key (fullRecon isF st rules rows).1).length
            - limit.natAbs)) := rfl

/-- C4: for every record set and limit, each update returned by
get_recent_media has its record id among the item ids of the returned entry
list, and for a nonnegative limit the returned entry list has at most limit
entries. -/
theorem c4_truncation_consistency (isF : PStr → Bool) (st : PStr → Option Int)
    (rules : List (PStr × PStr)) (rows : List QRow) (limit : Int) (key : SortKey)
    (u : Int × Int)
    (hu : u ∈ (get_recent_media isF st rules rows limit key).2) :
    u.2 ∈ (get_recent_media isF st rules rows limit key).1.map (fun e => e.item_id)
    ∧ (0 ≤ limit →
        (get_recent_media isF st rules rows limit key).1.length ≤ limit.toNat) := by
  constructor
  · simp only [get_recent_media] at hu ⊢
    exact of_decide_eq_true (List.mem_filter.mp hu).2
  · intro hl
    simp only [get_recent_media, pySlice, if_pos hl]
    exact List.length_take_le _ _

/-- Witness for c4_truncation_consistency on a one-record set with limit
two. -/
theorem c4_truncation_consistency_witness :
    ((100 : Int), (1 : Int)).2 ∈
      (get_recent_media (fun _ => true) (fun _ => some 100) []
        [⟨1, some ['t'], none, none, some 5, 7, ['a']⟩] 2 SortKey.fileMtime).1.map
        (fun e => e.item_id)
    ∧ (get_recent_media (fun _ => true) (fun _ => some 100) []
        [⟨1, some ['t'], none, none, some 5, 7, ['a']⟩] 2 SortKey.fileMtime).1.length
        ≤ (2 : Int).toNat :=
  ⟨(c4_truncation_consistency (fun _ => true) (fun _ => some 100) []
      [⟨1, some ['t'], none, none, some 5, 7, ['a']⟩] 2 SortKey.fileMtime
      ((100 : Int), (1 : Int)) (by decide)).1,
   (c4_truncation_consistency (fun _ => true) (fun _ => some 100) []
      [⟨1, some ['t'], none, none, some 5, 7, ['a']⟩] 2 SortKey.fileMtime
      ((100 : Int), (1 : Int)) (by decide)).2 (by decide)⟩

/-- collectUpdates over an appended list runs the front first and threads the
dict through, an abort in the front aborting the whole run. -/
theorem collect_append (fix : Bool) (tsR : Int → Bool) (tsY : Int → Int) (cy : Int) :
    ∀ (pre l : List CsvRow) (d : List (Int × Int)),
      collectUpdates fix tsR tsY cy (pre ++ l) d =
        (match collectUpdates fix tsR tsY cy pre d with
         | some d' => collectUpdates fix tsR tsY cy l d'
         | none => none) := by
  intro pre
  induction pre with
  | nil => intro l d; rfl
  | cons row rest ih =>
    intro l d
    obtain ⟨rid, fe, nu⟩ := row
    simp only [List.cons_append, collectUpdates]
    by_cases hg : fe = true ∧ nu ≠ Cell.empty
    · simp only [if_pos hg]
      cases rid with
      | empty => cases nu <;> rfl
      | malformed => cases nu <;> rfl
      | intv m =>
        cases nu with
        | empty => exact absurd rfl hg.2
        | malformed => rfl
        | intv t =>
          by_cases hs : fix = true ∧ skipTs tsR tsY cy t = true
          · simp only [if_pos hs]; exact ih l d
          · simp only [if_neg hs]; exact ih l (dictInsert d m t)
    · simp only [if_neg hg]; exact ih l d

/-- A row that fails the file_exists gating, has an empty new_updated_at
cell, or fails the validity check, is skipped and the rest proceeds. -/
theorem collect_skip_row (fix : Bool) (tsR : Int → Bool) (tsY : Int → Int)
    (cy : Int) (row : CsvRow) (rest : List CsvRow) (d : List (Int × Int))
    (h : row.file_exists = false ∨ row.new_updated_at = Cell.empty ∨
      (∃ m t, row.id = Cell.intv m ∧ row.new_updated_at = Cell.intv t ∧
        fix = true ∧ skipTs tsR tsY cy t = true)) :
    collectUpdates fix tsR tsY cy (row :: rest) d
      = collectUpdates fix tsR tsY cy rest d := by
  rcases h with h | h | ⟨m, t, h1, h2, h3, h4⟩
  · simp [collectUpdates, h]
  · simp [collectUpdates, h]
  · cases hfe : row.file_exists
    · simp [collectUpdates, hfe]
    · simp [collectUpdates, hfe, h1, h2, h3, h4]

/-- A gated-in row whose id or timestamp cell is not an integer raises out of
the loop: the whole collection aborts whatever rows remain. -/
theorem collect_abort_row (fix : Bool) (tsR : Int → Bool) (tsY : Int → Int)
    (cy : Int) (row : CsvRow) (rest : List CsvRow) (d : List (Int × Int))
    (hfe : row.file_exists = true) (hnu : row.new_updated_at ≠ Cell.empty)
    (h : row.id = Cell.empty ∨ row.id = Cell.malformed ∨
      row.new_updated_at = Cell.malformed) :
    collectUpdates fix tsR tsY cy (row :: rest) d = none := by
  rcases h with h | h | h
  · simp [collectUpdates, hfe, hnu, h]
  · simp [collectUpdates, hfe, hnu, h]
  · cases hid : row.id <;> simp [collectUpdates, hfe, hnu, h, hid]

/-- A row that passes gating and validity stores its pair in the dict. -/
theorem collect_insert_row (fix : Bool) (tsR : Int → Bool) (tsY : Int → Int)
    (cy : Int) (row : CsvRow) (rest : List CsvRow) (d : List (Int × Int))
    (m t : Int) (hfe : row.file_exists = true) (hid : row.id = Cell.intv m)
    (hnu : row.new_updated_at = Cell.intv t)
    (hs : ¬(fix = true ∧ skipTs tsR tsY cy t = true)) :
    collectUpdates fix tsR tsY cy (row :: rest) d
      = collectUpdates fix tsR tsY cy rest (dictInsert d m t) := by
  simp [collectUpdates, hfe, hid, hnu, hs]

/-- C5 amended: a row failing the file_exists gating or the timestamp
validity check is skipped without aborting the batch, but a gated-in row
whose id or new_updated_at cell does not parse as an integer raises to the
outer handler and aborts the entire import, leaving the remaining rows
unprocessed. -/
theorem c5_amended (fix : Bool) (tsR : Int → Bool) (tsY : Int → Int) (cy : Int) :
    (∀ (pre post : List CsvRow) (d : List (Int × Int)) (row : CsvRow),
        (row.file_exists = false ∨ row.new_updated_at = Cell.empty ∨
          (∃ m t, row.id = Cell.intv m ∧ row.new_updated_at = Cell.intv t ∧
            fix = true ∧ skipTs tsR tsY cy t = true)) →
        collectUpdates fix tsR tsY cy (pre ++ row :: post) d
          = collectUpdates fix tsR tsY cy (pre ++ post) d)
    ∧ (∀ (pre post : List CsvRow) (d : List (Int × Int)) (row : CsvRow),
        row.file_exists = true → row.new_updated_at ≠ Cell.empty →
        (row.id = Cell.empty ∨ row.id = Cell.malformed ∨
          row.new_updated_at = Cell.malformed) →
        collectUpdates fix tsR tsY cy (pre ++ row :: post) d = none) := by
  constructor
  · intro pre post d row h
    rw [collect_append, collect_append]
    cases hc : collectUpdates fix tsR tsY cy pre d with
    | none => rfl
    | some d' => exact collect_skip_row fix tsR tsY cy row post d' h
  · intro pre post d row hfe hnu h
    rw [collect_append]
    cases hc : collectUpdates fix tsR tsY cy pre d with
    | none => rfl
    | some d' => exact collect_abort_row fix tsR tsY cy row post d' hfe hnu h

/-- Witness for c5_amended: a gated-out row is skipped with the rest still
processed, and a malformed id aborts. -/
theorem c5_amended_witness :
    collectUpdates false (fun _ => false) (fun _ => 2000) 2025
      [⟨Cell.intv 1, false, Cell.intv 5⟩, ⟨Cell.intv 2, true, Cell.intv 20⟩] []
      = collectUpdates false (fun _ => false) (fun _ => 2000) 2025
        [⟨Cell.intv 2, true, Cell.intv 20⟩] []
    ∧ collectUpdates false (fun _ => false) (fun _ => 2000) 2025
      [⟨Cell.malformed, true, Cell.intv 5⟩] [] = none :=
  ⟨(c5_amended false (fun _ => false) (fun _ => 2000) 2025).1 []
      [⟨Cell.intv 2, true, Cell.intv 20⟩] [] ⟨Cell.intv 1, false, Cell.intv 5⟩
      (Or.inl rfl),
   (c5_amended false (fun _ => false) (fun _ => 2000) 2025).2 [] [] []
      ⟨Cell.malformed, true, Cell.intv 5⟩ rfl (by decide)
      (Or.inr (Or.inl rfl))⟩

/-- C5 counterexample: a row whose id does not parse as an integer aborts the
whole batch (the import returns failure and the remaining rows are never
collected), although the same rows without it import fine; per-record parse
problems do abort the batch, contrary to the claim. -/
theorem c5_counterexample :
    collectUpdates true (fun _ => false) (fun _ => 2000) 2025
      [⟨Cell.intv 1, true, Cell.intv 10⟩, ⟨Cell.malformed, true, Cell.intv 5⟩,
        ⟨Cell.intv 2, true, Cell.intv 20⟩] [] = none
    ∧ collectUpdates true (fun _ => false) (fun _ => 2000) 2025
      [⟨Cell.intv 1, true, Cell.intv 10⟩, ⟨Cell.intv 2, true, Cell.intv 20⟩] []
      = some [(1, 10), (2, 20)] :=
  ⟨by decide, by decide⟩

/-- Lookup after a Python-style dict insertion. -/
theorem alookup_dictInsert (d : List (Int × Int)) (k v q : Int) :
    alookup (dictInsert d k v) q = if k = q then some v else alookup d q := by
  induction d with
  | nil => simp [dictInsert, alookup]
  | cons p rest ih =>
    obtain ⟨pk, pv⟩ := p
    by_cases h : pk = k
    · subst h
      by_cases h2 : pk = q <;> simp [dictInsert, alookup, h2]
    · by_cases h2 : pk = q <;> by_cases h3 : k = q <;>
        simp_all [dictInsert, alookup]

/-- A skipped row contributes no accepted timestamp. -/
theorem acceptedTs_skip (fix : Bool) (tsR : Int → Bool) (tsY : Int → Int)
    (cy : Int) (row : CsvRow) (k : Int)
    (h : row.file_exists = false ∨ row.new_updated_at = Cell.empty ∨
      (∃ m t, row.id = Cell.intv m ∧ row.new_updated_at = Cell.intv t ∧
        fix = true ∧ skipTs tsR tsY cy t = true)) :
    acceptedTs fix tsR tsY cy row k = none := by
  rcases h with h | h | ⟨m, t, h1, h2, h3, h4⟩
  · simp [acceptedTs, h]
  · simp [acceptedTs, h]
  · cases hfe : row.file_exists
    · simp [acceptedTs, hfe]
    · simp [acceptedTs, hfe, h1, h2, h3, h4]

/-- An accepted row contributes its timestamp exactly at its record id. -/
theorem acceptedTs_insert (fix : Bool) (tsR : Int → Bool) (tsY : Int → Int)
    (cy : Int) (row : CsvRow) (k m t : Int)
    (hfe : row.file_exists = true) (hid : row.id = Cell.intv m)
    (hnu : row.new_updated_at = Cell.intv t)
    (hs : ¬(fix = true ∧ skipTs tsR tsY cy t = true)) :
    acceptedTs fix tsR tsY cy row k = if m = k then some t else none := by
  simp [acceptedTs, hfe, hid, hnu, hs]

/-- C10: the import accumulates candidate updates in a mapping keyed by
record id, so when several accepted rows carry the same id only the last
row's timestamp survives (last-occurrence wins), whereas the direct
reconciliation path emits one update per joined row and can therefore emit
several updates for the same id, as the concrete two-part record shows. -/
theorem c10_dict_last_wins :
    (∀ (fix : Bool) (tsR : Int → Bool) (tsY : Int → Int) (cy : Int)
        (rows : List CsvRow) (d0 d : List (Int × Int)) (k : Int),
        collectUpdates fix tsR tsY cy rows d0 = some d →
        alookup d k =
          (match lastAcceptedTs fix tsR tsY cy rows k with
           | some v => some v
           | none => alookup d0 k))
    ∧ (fullRecon (fun _ => true)
        (fun p => if p = ['a'] then some 100 else some 200) []
        [⟨1, some ['t'], none, none, some 5, 7, ['a']⟩,
          ⟨1, some ['t'], none, none, some 5, 7, ['b']⟩]).2
        = [(100, 1), (200, 1)] := by
  constructor
  · intro fix tsR tsY cy rows
    induction rows with
    | nil =>
      intro d0 d k hcol
      simp only [collectUpdates, Option.some.injEq] at hcol
      subst hcol
      rfl
    | cons row rest ih =>
      intro d0 d k hcol
      by_cases hg : row.file_exists = true ∧ row.new_updated_at ≠ Cell.empty
      · rcases hid : row.id with _ | m | _
        · rw [collect_abort_row fix tsR tsY cy row rest d0 hg.1 hg.2
            (Or.inl hid)] at hcol
          exact Option.noConfusion hcol
        · rcases hnu : row.new_updated_at with _ | t | _
          · exact absurd hnu hg.2
          · by_cases hs : fix = true ∧ skipTs tsR tsY cy t = true
            · have hsk : row.file_exists = false ∨ row.new_updated_at = Cell.empty ∨
                  (∃ m' t', row.id = Cell.intv m' ∧ row.new_updated_at = Cell.intv t' ∧
                    fix = true ∧ skipTs tsR tsY cy t' = true) :=
                Or.inr (Or.inr ⟨m, t, hid, hnu, hs.1, hs.2⟩)
              rw [collect_skip_row fix tsR tsY cy row rest d0 hsk] at hcol
              rw [ih d0 d k hcol]
              have ha := acceptedTs_skip fix tsR tsY cy row k hsk
              cases hl : lastAcceptedTs fix tsR tsY cy rest k <;>
                simp [lastAcceptedTs, hl, ha]
            · rw [collect_insert_row fix tsR tsY cy row rest d0 m t
                hg.1 hid hnu hs] at hcol
              rw [ih (dictInsert d0 m t) d k hcol, alookup_dictInsert]
              have ha := acceptedTs_insert fix tsR tsY cy row k m t hg.1 hid hnu hs
              simp only [lastAcceptedTs, ha]
              cases hl : lastAcceptedTs fix tsR tsY cy rest k with
              | some v => rfl
              | none => by_cases hk : m = k <;> simp [hk]
          · rw [collect_abort_row fix tsR tsY cy row rest d0 hg.1 hg.2
              (Or.inr (Or.inr hnu))] at hcol
            exact Option.noConfusion hcol
        · rw [collect_abort_row fix tsR tsY cy row rest d0 hg.1 hg.2
            (Or.inr (Or.inl hid))] at hcol
          exact Option.noConfusion hcol
      · have hd : row.file_exists = false ∨ row.new_updated_at = Cell.empty := by
          rcases Bool.eq_false_or_eq_true row.file_exists with h | h
          · right
            by_contra h2
            exact hg ⟨h, h2⟩
          · exact Or.inl h
        have hsk : row.file_exists = false ∨ row.new_updated_at = Cell.empty ∨
            (∃ m' t', row.id = Cell.intv m' ∧ row.new_updated_at = Cell.intv t' ∧
              fix = true ∧ skipTs tsR tsY cy t' = true) :=
          hd.elim Or.inl (fun h => Or.inr (Or.inl h))
        rw [collect_skip_row fix tsR tsY cy row rest d0 hsk] at hcol
        rw [ih d0 d k hcol]
        have ha := acceptedTs_skip fix tsR tsY cy row k hsk
        cases hl : lastAcceptedTs fix tsR tsY cy rest k <;>
          simp [lastAcceptedTs, hl, ha]
  · decide

/-- Witness for c10_dict_last_wins: two accepted rows with the same id leave
only the second row's timestamp in the dict. -/
theorem c10_dict_last_wins_witness :
    alookup [(1, 20)] 1 = some 20 :=
  (c10_dict_last_wins.1 false (fun _ => false) (fun _ => 2000) 2025
      [⟨Cell.intv 1, true, Cell.intv 10⟩, ⟨Cell.intv 1, true, Cell.intv 20⟩]
      [] [(1, 20)] 1 (by decide)).trans (by decide)

/-- C9: both writers return success exactly when at least one update
statement was executed and committed on the duplicate store; a run applying
zero updates (missing source, parse abort, empty dict, aborted validation, or
every statement failing) reports failure to the caller. -/
theorem c9_success_iff_applied (σ : FState) (src outp tpl : PStr)
    (rows : List CsvRow) (ups : List (Int × Int)) (fix : Bool)
    (tsR : Int → Bool) (tsY : Int → Int) (cy : Int) (ef : Int → Int → Bool) :
    ((update_database_copy σ src outp ups fix tsR tsY cy ef).ok = true ↔
      0 < (update_database_copy σ src outp ups fix tsR tsY cy ef).applied)
    ∧ ((create_db_from_csv σ rows tpl outp fix tsR tsY cy ef).ok = true ↔
      0 < (create_db_from_csv σ rows tpl outp fix tsR tsY cy ef).applied) := by
  constructor
  · unfold update_database_copy
    cases σ src with
    | none => simp
    | some c =>
      cases h : updLoop fix tsR tsY cy ef ups c 0 with
      | none => simp [h]
      | some res => simp [h]
  · unfold create_db_from_csv
    cases σ tpl with
    | none => simp
    | some c =>
      cases collectUpdates fix tsR tsY cy rows [] with
      | none => simp
      | some ups' =>
        cases ups' with
        | nil => simp
        | cons u rest => simp

/-- C8: neither writer touches any path other than the output path, whatever
the outcome of the run; in particular, when the source (or template) path
differs from the output path its content is unchanged before versus after. -/
theorem c8_source_untouched (σ : FState) (src outp tpl : PStr)
    (rows : List CsvRow) (ups : List (Int × Int)) (fix : Bool)
    (tsR : Int → Bool) (tsY : Int → Int) (cy : Int) (ef : Int → Int → Bool)
    (p : PStr) (hp : p ≠ outp) :
    (update_database_copy σ src outp ups fix tsR tsY cy ef).files p = σ p
    ∧ (create_db_from_csv σ rows tpl outp fix tsR tsY cy ef).files p = σ p := by
  constructor
  · unfold update_database_copy
    cases σ src with
    | none => rfl
    | some c =>
      cases h : updLoop fix tsR tsY cy ef ups c 0 with
      | none => simp [h, fupd, hp]
      | some res => simp [h, fupd, hp]
  · unfold create_db_from_csv
    cases σ tpl with
    | none => rfl
    | some c =>
      cases collectUpdates fix tsR tsY cy rows [] with
      | none => simp [fupd, hp]
      | some ups' =>
        cases ups' with
        | nil => simp [fupd, hp]
        | cons u rest => simp [fupd, hp]

/-- Witness for c8_source_untouched at a concrete run whose source path
differs from the output path. -/
theorem c8_source_untouched_witness :
    (['s'] : PStr) ≠ ['o']
    ∧ (update_database_copy (fun q => if q = ['s'] then some [(1, 5)] else none)
        ['s'] ['o'] [(9, 1)] true (fun _ => false) (fun _ => 2000) 2025
        (fun _ _ => false)).files ['s']
      = (fun q => if q = ['s'] then some [(1, 5)] else none) ['s']
    ∧ (create_db_from_csv (fun q => if q = ['s'] then some [(1, 5)] else none)
        [⟨Cell.intv 1, true, Cell.intv 9⟩] ['s'] ['o'] true (fun _ => false)
        (fun _ => 2000) 2025 (fun _ _ => false)).files ['s']
      = (fun q => if q = ['s'] then some [(1, 5)] else none) ['s'] :=
  ⟨by decide,
   (c8_source_untouched (fun q => if q = ['s'] then some [(1, 5)] else none)
      ['s'] ['o'] ['s'] [⟨Cell.intv 1, true, Cell.intv 9⟩] [(9, 1)] true
      (fun _ => false) (fun _ => 2000) 2025 (fun _ _ => false) ['s']
      (by decide)).1,
   (c8_source_untouched (fun q => if q = ['s'] then some [(1, 5)] else none)
      ['s'] ['o'] ['s'] [⟨Cell.intv 1, true, Cell.intv 9⟩] [(9, 1)] true
      (fun _ => false) (fun _ => 2000) 2025 (fun _ _ => false) ['s']
      (by decide)).2⟩

/-- Inserting into a list adds one to its length. -/
theorem sinsert_length (le : α → α → Bool) (a : α) (l : List α) :
    (sinsert le a l).length = l.length + 1 := by
  induction l with
  | nil => rfl
  | cons b bs ih => by_cases h : le a b <;> simp [sinsert, h, ih]

/-- Sorting preserves length. -/
theorem ssort_length (le : α → α → Bool) (l : List α) :
    (ssort le l).length = l.length := by
  induction l with
  | nil => rfl
  | cons a as ih => simp [ssort, sinsert_length, ih]

/-- Membership after insertion. -/
theorem sinsert_mem (le : α → α → Bool) (a x : α) (l : List α) :
    x ∈ sinsert le a l ↔ x = a ∨ x ∈ l := by
  induction l with
  | nil => simp [sinsert]
  | cons b bs ih =>
    by_cases h : le a b
    · simp [sinsert, h]
    · simp [sinsert, h, ih]
      tauto

/-- Sorting preserves membership. -/
theorem ssort_mem (le : α → α → Bool) (x : α) (l : List α) :
    x ∈ ssort le l ↔ x ∈ l := by
  induction l with
  | nil => simp [ssort]
  | cons a as ih => simp [ssort, sinsert_mem, ih]

/-- sortEntries preserves length. -/
theorem sortEntries_length (k : SortKey) (es : List Entry) :
    (sortEntries k es).length = es.length := by
  cases k <;> simp [sortEntries, ssort_length]

/-- sortEntries preserves membership. -/
theorem sortEntries_mem (k : SortKey) (x : Entry) (es : List Entry) :
    x ∈ sortEntries k es ↔ x ∈ es := by
  cases k <;> simp [sortEntries, ssort_mem]

/-- Unfolding fullRecon on a row whose probe misses. -/
theorem fullRecon_cons_none (isF : PStr → Bool) (st : PStr → Option Int)
    (rules : List (PStr × PStr)) (r : QRow) (rest : List QRow)
    (h : probe isF st rules r.file = none) :
    fullRecon isF st rules (r :: rest)
      = (create_entry r :: (fullRecon isF st rules rest).1,
         (fullRecon isF st rules rest).2) := by
  simp [fullRecon, h]

/-- Unfolding fullRecon on a row whose probe hits. -/
theorem fullRecon_cons_some (isF : PStr → Bool) (st : PStr → Option Int)
    (rules : List (PStr × PStr)) (r : QRow) (rest : List QRow) (t : Int) (a : PStr)
    (h : probe isF st rules r.file = some (t, a)) :
    fullRecon isF st rules (r :: rest)
      = ({ create_entry r with
            file_mtime := some t, actual_path := some a, file_exists := true,
            path_mapped := decide (a ≠ r.file) } :: (fullRecon isF st rules rest).1,
         (t, r.rid) :: (fullRecon isF st rules rest).2) := by
  simp [fullRecon, h]

/-- The first loop produces exactly one entry per row. -/
theorem fullRecon_len (isF : PStr → Bool) (st : PStr → Option Int)
    (rules : List (PStr × PStr)) :
    ∀ rows : List QRow, (fullRecon isF st rules rows).1.length = rows.length := by
  intro rows
  induction rows with
  | nil => rfl
  | cons r rest ih =>
    cases hp : probe isF st rules r.file with
    | none => rw [fullRecon_cons_none isF st rules r rest hp]; simp [ih]
    | some pr =>
      obtain ⟨t, a⟩ := pr
      rw [fullRecon_cons_some isF st rules r rest t a hp]
      simp [ih]

/-- Every update produced by the first loop has the item id of some entry
produced in the same pass. -/
theorem fullRecon_ids (isF : PStr → Bool) (st : PStr → Option Int)
    (rules : List (PStr × PStr)) :
    ∀ (rows : List QRow) (u : Int × Int),
      u ∈ (fullRecon isF st rules rows).2 →
      ∃ e ∈ (fullRecon isF st rules rows).1, e.item_id = u.2 := by
  intro rows
  induction rows with
  | nil => intro u hu; simp [fullRecon] at hu
  | cons r rest ih =>
    intro u hu
    cases hp : probe isF st rules r.file with
    | none =>
      rw [fullRecon_cons_none isF st rules r rest hp] at hu ⊢
      obtain ⟨e, he, heq⟩ := ih u hu
      exact ⟨e, List.mem_cons_of_mem _ he, heq⟩
    | some pr =>
      obtain ⟨t, a⟩ := pr
      rw [fullRecon_cons_some isF st rules r rest t a hp] at hu ⊢
      rcases List.mem_cons.mp hu with h | h
      · subst h
        exact ⟨_, List.mem_cons_self _ _, by simp [create_entry]⟩
      · obtain ⟨e, he, heq⟩ := ih u h
        exact ⟨e, List.mem_cons_of_mem _ he, heq⟩

/-- Filtering with a predicate true on every element is the identity. -/
theorem filter_all_true (p : α → Bool) :
    ∀ l : List α, (∀ a ∈ l, p a = true) → l.filter p = l := by
  intro l
  induction l with
  | nil => intro _; rfl
  | cons a as ih =>
    intro h
    rw [List.filter_cons, if_pos (h a (List.mem_cons_self _ _)),
      ih (fun b hb => h b (List.mem_cons_of_mem _ hb))]

/-- With a limit at least the number of rows, get_recent_media returns the
whole update list of the first loop: the slice keeps every entry and the id
filter keeps every update. -/
theorem grm_updates_all (isF : PStr → Bool) (st : PStr → Option Int)
    (rules : List (PStr × PStr)) (rows : List QRow) (limit : Int) (key : SortKey)
    (hl : (rows.length : Int) ≤ limit) :
    (get_recent_media isF st rules rows limit key).2
      = (fullRecon isF st rules rows).2 := by
  have h0 : 0 ≤ limit := le_trans (Int.natCast_nonneg rows.length) hl
  have hlen : (sortEntries key (fullRecon isF st rules rows).1).length
      ≤ limit.toNat := by
    rw [sortEntries_length, fullRecon_len]
    omega
  have hslice : pySlice (sortEntries key (fullRecon isF st rules rows).1) limit
      = sortEntries key (fullRecon isF st rules rows).1 := by
    rw [pySlice, if_pos h0]
    exact List.take_of_length_le hlen
  simp only [get_recent_media, hslice]
  apply filter_all_true
  intro u hu
  obtain ⟨e, he, heq⟩ := fullRecon_ids isF st rules rows u hu
  exact decide_eq_true
    (List.mem_map.mpr ⟨e, (sortEntries_mem key e _).mpr he, heq⟩)

/-- When every record has a title, the export query and the get_recent_media
query agree. -/
theorem exportQ_eq_recentQ (db : List DbRow) (ht : ∀ r ∈ db, r.title ≠ none) :
    exportQ db = recentQ db := by
  unfold exportQ recentQ
  congr 1
  apply List.filterMap_congr
  intro r hr
  simp [ht r hr]

/-- Importing the exported rows collects exactly the validity-filtered direct
updates, inserted in order into the id-keyed dict. -/
theorem collect_of_export (isF : PStr → Bool) (st : PStr → Option Int)
    (rules : List (PStr × PStr)) (tsR : Int → Bool) (tsY : Int → Int) (cy : Int) :
    ∀ (qs : List QRow) (d : List (Int × Int)),
      collectUpdates true tsR tsY cy (qs.map (exportRowOf isF st rules)) d =
        some ((((fullRecon isF st rules qs).2.filter
            (fun u => !(skipTs tsR tsY cy u.1))).map (fun u => (u.2, u.1))).foldl
          (fun d' p => dictInsert d' p.1 p.2) d) := by
  intro qs
  induction qs with
  | nil => intro d; rfl
  | cons r rest ih =>
    intro d
    cases hp : probe isF st rules r.file with
    | none =>
      have hrow : exportRowOf isF st rules r
          = ⟨Cell.intv r.rid, false, cellOfOpt r.updated_at⟩ := by
        simp [exportRowOf, hp]
      rw [List.map_cons, hrow,
        collect_skip_row true tsR tsY cy _ _ d (Or.inl rfl),
        fullRecon_cons_none isF st rules r rest hp]
      exact ih d
    | some pr =>
      obtain ⟨t, a⟩ := pr
      have hrow : exportRowOf isF st rules r
          = ⟨Cell.intv r.rid, true, Cell.intv t⟩ := by
        simp [exportRowOf, hp]
      rw [List.map_cons, hrow, fullRecon_cons_some isF st rules r rest t a hp]
      by_cases hs : skipTs tsR tsY cy t = true
      · rw [collect_skip_row true tsR tsY cy _ _ d
          (Or.inr (Or.inr ⟨r.rid, t, rfl, rfl, rfl, hs⟩))]
        simpa [hs] using ih d
      · rw [collect_insert_row true tsR tsY cy _ _ d r.rid t rfl rfl rfl
          (by simp [hs])]
        simpa [hs] using ih (dictInsert d r.rid t)

/-- C1 amended: when every record of the set has a non-null title, exporting
the reconciliation and importing the rows yields exactly the id-keyed mapping
obtained by applying the validity filter once to the update list of the
direct reconciliation (run with a limit covering all rows) and inserting the
filtered updates in order, so duplicate record ids collapse to the last
occurrence; without the title restriction or with duplicate ids the two
PendingUpdate sets can differ. -/
theorem c1_amended (db : List DbRow) (isF : PStr → Bool) (st : PStr → Option Int)
    (rules : List (PStr × PStr)) (tsR : Int → Bool) (tsY : Int → Int) (cy : Int)
    (limit : Int) (key : SortKey)
    (ht : ∀ r ∈ db, r.title ≠ none)
    (hl : ((recentQ db).length : Int) ≤ limit) :
    collectUpdates true tsR tsY cy
        (export_full_media_data_to_csv db isF st rules none) [] =
      some ((((get_recent_media isF st rules (recentQ db) limit key).2.filter
          (fun u => !(skipTs tsR tsY cy u.1))).map (fun u => (u.2, u.1))).foldl
        (fun d p => dictInsert d p.1 p.2) []) := by
  have he : export_full_media_data_to_csv db isF st rules none
      = (recentQ db).map (exportRowOf isF st rules) := by
    simp [export_full_media_data_to_csv, exportQ_eq_recentQ db ht]
  rw [he, grm_updates_all isF st rules (recentQ db) limit key hl]
  exact collect_of_export isF st rules tsR tsY cy (recentQ db) []

/-- Witness for c1_amended on a one-record database with a title. -/
theorem c1_amended_witness :
    collectUpdates true (fun _ => false) (fun _ => 2000) 2025
        (export_full_media_data_to_csv
          [⟨1, some ['t'], none, none, some 5, 7, some ['a']⟩]
          (fun _ => true) (fun _ => some 100) [] none) [] =
      some ((((get_recent_media (fun _ => true) (fun _ => some 100) []
          (recentQ [⟨1, some ['t'], none, none, some 5, 7, some ['a']⟩]) 5
          SortKey.fileMtime).2.filter
          (fun u => !(skipTs (fun _ => false) (fun _ => 2000) 2025 u.1))).map
          (fun u => (u.2, u.1))).foldl (fun d p => dictInsert d p.1 p.2) []) :=
  c1_amended [⟨1, some ['t'], none, none, some 5, 7, some ['a']⟩]
    (fun _ => true) (fun _ => some 100) [] (fun _ => false) (fun _ => 2000) 2025
    5 SortKey.fileMtime (by decide) (by decide)

/-- C1 counterexample: with two media parts joined to the same record id, the
direct reconciliation emits two updates for id one, while exporting then
importing keeps only the last (the import dict collapses duplicate ids); and
a record with a null title is excluded from the direct reconciliation but
exported and imported, so the two PendingUpdate sets differ even though the
validity filter accepts everything here. -/
theorem c1_counterexample :
    ((100 : Int), (1 : Int)) ∈
      (get_recent_media (fun _ => true)
        (fun p => if p = ['a'] then some 100 else some 200) []
        (recentQ [⟨1, some ['t'], none, none, some 5, 7, some ['a']⟩,
          ⟨1, some ['t'], none, none, some 5, 7, some ['b']⟩]) 5
        SortKey.fileMtime).2
    ∧ collectUpdates true (fun _ => false) (fun _ => 2000) 2025
        (export_full_media_data_to_csv
          [⟨1, some ['t'], none, none, some 5, 7, some ['a']⟩,
            ⟨1, some ['t'], none, none, some 5, 7, some ['b']⟩]
          (fun _ => true) (fun p => if p = ['a'] then some 100 else some 200) []
          none) [] = some [(1, 200)]
    ∧ ((1 : Int), (100 : Int)) ∉ [((1 : Int), (200 : Int))]
    ∧ (get_recent_media (fun _ => true)
        (fun p => if p = ['c'] then some 50 else some 200) []
        (recentQ [⟨3, none, none, none, some 5, 7, some ['c']⟩]) 5
        SortKey.fileMtime).2 = []
    ∧ collectUpdates true (fun _ => false) (fun _ => 2000) 2025
        (export_full_media_data_to_csv [⟨3, none, none, none, some 5, 7, some ['c']⟩]
          (fun _ => true) (fun p => if p = ['c'] then some 50 else some 200) [] none)
        [] = some [(3, 50)] :=
  ⟨by decide, by decide, by decide, by decide, by decide⟩
